import Mathlib

/-!
Verification development for the prodcal-ics pipeline (src/prodcal_ics.py).

The Python program is shallowly embedded here.  Text is modelled as
`List Char` (Python `str`); Python dicts are modelled as insertion-ordered
association lists; the wall clock read by `datetime.utcnow()` is passed in
as an explicit `now : Nat` parameter; the fetched/parsed HTML tree is
modelled by the structure `PageTree`, which records exactly the queries the
program performs on the tree (the list of old-layout month containers and
the flat text content), since the HTML library itself is an external
collaborator.  Exceptions are modelled with `Except`, and the 404 outcome
of the fetch with `Option`.
-/

namespace ProdcalIcs

/-- Characters treated as whitespace by Python `str.strip()` and by the
regex class `\s` (restricted to the characters that can occur here;
`\xa0` is included because Python treats the no-break space as
whitespace in both contexts). -/
def isPySpace (c : Char) : Bool :=
  c = ' ' || c = '\t' || c = '\n' || c = '\r' || c = '\x0b' || c = '\x0c' || c = '\xa0'

/-- Python `s.strip()`: drop leading and trailing whitespace.
`List.rdropWhile` drops from the right. -/
def pythonStrip (s : List Char) : List Char :=
  List.rdropWhile isPySpace (s.dropWhile isPySpace)

/-- Python `s.split(".", 1)[1]`, assuming a dot is present: everything
after the first dot. -/
def splitDotRest (s : List Char) : List Char :=
  (s.dropWhile (fun c => !(c = '.'))).drop 1

/-- Python `"needle" in haystack` substring test. -/
def strContains (haystack needle : List Char) : Bool :=
  decide (needle <:+: haystack)

/-- Value of a string of decimal digit characters, Python `int(s)`
(most-significant digit first). -/
def digitVal (c : Char) : Nat := c.toNat - 48

/-- Numeric value of a digit string, most-significant digit first. -/
def charsVal (s : List Char) : Nat := s.foldl (fun a c => 10 * a + digitVal c) 0

/-- The three day classifications produced by the parser; the Python code
uses the strings "holiday", "dayoff" and "shortened". -/
inductive DayKind
  | holiday
  | dayoff
  | shortened
deriving DecidableEq

/-- The hint-text marker for a pre-holiday (shortened) day. -/
def PRE_HOLIDAY : List Char := "Предпраздничный день".data

/-- The day-off marker followed by a period. -/
def DAY_OFF_DOT : List Char := "Выходной день.".data

/-- The bare day-off marker. -/
def DAY_OFF : List Char := "Выходной день".data

/-- The class-attribute marker for a shortened day. -/
def SHORTENED_MARK : List Char := "shortened".data

/-- Model of `_classify_day_type(hint_text, li_classes)` from
src/prodcal_ics.py lines 38-65.  Returns `some (kind, holiday_name)` or
`none` for a normal working day.  `hint_text.strip()` is `pythonStrip`;
`"shortened" in li_classes` is `strContains`; the name in the holiday
branch is `hint_text.split(".", 1)[1].strip() or None`. -/
def classify_day_type (hintText : List Char) (liClasses : List Char) :
    Option (DayKind × Option (List Char)) :=
  let hint := pythonStrip hintText
  if strContains liClasses SHORTENED_MARK then some (.shortened, none)
  else if PRE_HOLIDAY.isPrefixOf hint then some (.shortened, none)
  else if DAY_OFF_DOT.isPrefixOf hint then
    let name := pythonStrip (splitDotRest hint)
    some (.holiday, if name = [] then none else some name)
  else if DAY_OFF.isPrefixOf hint then some (.dayoff, none)
  else none

/-- The inline classification of `parse_months_text_fallback`
(src/prodcal_ics.py lines 144-153) applied to the already-stripped
window text.  The holiday branch additionally truncates the name at the
next sentence boundary: `re.split(r"[.\n\r]", name, maxsplit=1)[0]`
is the longest prefix free of the three boundary characters. -/
def fallback_classify_window (window : List Char) :
    Option (DayKind × Option (List Char)) :=
  if PRE_HOLIDAY.isPrefixOf window then some (.shortened, none)
  else if DAY_OFF_DOT.isPrefixOf window then
    let name := pythonStrip (splitDotRest window)
    let name2 := pythonStrip (name.takeWhile (fun c => !(c = '.' || c = '\n' || c = '\r')))
    some (.holiday, if name2 = [] then none else some name2)
  else if DAY_OFF.isPrefixOf window then some (.dayoff, none)
  else none

/-- The fallback strategy's classification as a function of the raw
trailing text: in the source the window is stripped at creation
(`window = chunk[m.end(): m.end() + 120].strip()`, line 142) before the
inline rules run. -/
def fallback_classify_text (t : List Char) : Option (DayKind × Option (List Char)) :=
  fallback_classify_window (pythonStrip t)

/-- Modelled from the claim's words (C2), for comparison with
`classify_day_type`: text beginning with the pre-holiday marker is a
shortened workday; text beginning with the day-off marker followed by a
period and a (nonempty) trailing name is a holiday carrying that name;
text beginning with the day-off marker with no following name is a plain
day off; anything else is unclassified. -/
def specClassifyC2 (t : List Char) : Option (DayKind × Option (List Char)) :=
  let hint := pythonStrip t
  if PRE_HOLIDAY.isPrefixOf hint then some (.shortened, none)
  else if DAY_OFF_DOT.isPrefixOf hint ∧ pythonStrip (splitDotRest hint) ≠ [] then
    some (.holiday, some (pythonStrip (splitDotRest hint)))
  else if DAY_OFF.isPrefixOf hint then some (.dayoff, none)
  else none

/-- The C2 rules amended to match the code on the boundary case: text
beginning with the day-off marker followed by a period is a holiday whose
name is the stripped text after the period when that is nonempty, and
absent otherwise; the day-off rule applies only when no period follows
the marker. -/
def specClassifyC2Amended (t : List Char) : Option (DayKind × Option (List Char)) :=
  let hint := pythonStrip t
  if PRE_HOLIDAY.isPrefixOf hint then some (.shortened, none)
  else if DAY_OFF_DOT.isPrefixOf hint then
    let name := pythonStrip (splitDotRest hint)
    some (.holiday, if name = [] then none else some name)
  else if DAY_OFF.isPrefixOf hint then some (.dayoff, none)
  else none

/-- The fixed maximum number of dates kept in a single event
(src/prodcal_ics.py line 21). -/
def MAX_SPAN_DAYS : Nat := 7

/-- Helper for `group_consecutive_days`: the Python loop
`for d in days[1:]` extends the last group when `d == groups[-1][-1] + 1`
and opens a new group otherwise; rendered recursively, `d` is the
previously processed element and the result's first group starts at `d`. -/
def groupConsecAux (d : Nat) : List Nat → List (List Nat)
  | [] => [[d]]
  | e :: rest =>
    if e = d + 1 then
      match groupConsecAux e rest with
      | [] => [[d]]
      | g :: gs => (d :: g) :: gs
    else [d] :: groupConsecAux e rest

/-- Model of `group_consecutive_days(days)` (src/prodcal_ics.py lines
182-193): sort, then group into maximal consecutive runs.  Python
`sorted` is modelled by `List.insertionSort`. -/
def group_consecutive_days (days : List Nat) : List (List Nat) :=
  match days.insertionSort (· ≤ ·) with
  | [] => []
  | d :: rest => groupConsecAux d rest

/-- Helper for `split_run_into_chunks`: the Python `while i < len(run)`
loop emitting `run[i:i + max_len]` slices; `fuel` bounds the iteration
count (the callers pass `run.length`, which suffices for any positive
`maxLen`). -/
def chunksLoop (maxLen : Nat) : Nat → List Nat → List (List Nat)
  | 0, _ => []
  | _ + 1, [] => []
  | fuel + 1, a :: l => (a :: l).take maxLen :: chunksLoop maxLen fuel ((a :: l).drop maxLen)

/-- Model of `split_run_into_chunks(run, max_len)` (src/prodcal_ics.py
lines 196-205). -/
def split_run_into_chunks (run : List Nat) (maxLen : Nat) : List (List Nat) :=
  if run.length ≤ maxLen then [run] else chunksLoop maxLen run.length run

/-- The composition the claims quantify over: group the days into
consecutive runs and split each run into chunks of at most
`MAX_SPAN_DAYS` days, exactly as the two nested loops of `add_grouped`
(src/prodcal_ics.py lines 236-237) enumerate them. -/
def groupedChunks (days : List Nat) : List (List Nat) :=
  (group_consecutive_days days).flatMap (fun run => split_run_into_chunks run MAX_SPAN_DAYS)

/-- Calendar date, as produced by Python `datetime.date`. -/
structure Date where
  year : Nat
  month : Nat
  day : Nat
deriving DecidableEq

/-- Gregorian leap-year rule used by Python `datetime`. -/
def isLeapYear (y : Nat) : Bool :=
  y % 4 = 0 && (!(y % 100 = 0) || y % 400 = 0)

/-- Number of days in a month, per the Gregorian calendar. -/
def daysInMonth (y m : Nat) : Nat :=
  if m = 2 then (if isLeapYear y then 29 else 28)
  else if m = 4 ∨ m = 6 ∨ m = 9 ∨ m = 11 then 30
  else 31

/-- Python `date + timedelta(days=1)`. -/
def nextDay (d : Date) : Date :=
  if d.day < daysInMonth d.year d.month then ⟨d.year, d.month, d.day + 1⟩
  else if d.month < 12 then ⟨d.year, d.month + 1, 1⟩
  else ⟨d.year + 1, 1, 1⟩

/-- Lexicographic order on dates (the start-date order of C4). -/
def dateLE (a b : Date) : Prop :=
  a.year < b.year ∨ (a.year = b.year ∧
    (a.month < b.month ∨ (a.month = b.month ∧ a.day ≤ b.day)))

instance : DecidablePred fun p : Date × Date => dateLE p.1 p.2 := fun _ => by
  unfold dateLE; infer_instance

instance (a b : Date) : Decidable (dateLE a b) := by
  unfold dateLE; infer_instance

/-- One VEVENT as assembled by `make_event` (src/prodcal_ics.py lines
208-222).  `dtstamp` carries the `datetime.utcnow()` reading, modelled as
the explicit run parameter `now`. -/
structure VEvent where
  summary : List Char
  description : Option (List Char)
  dtstart : Date
  dtend : Date
  dtstamp : Nat
  uid : List Char
deriving DecidableEq

/-- Decimal digit to character, as Python `str` renders digits. -/
def digitChar : Nat → Char
  | 0 => '0' | 1 => '1' | 2 => '2' | 3 => '3' | 4 => '4'
  | 5 => '5' | 6 => '6' | 7 => '7' | 8 => '8' | 9 => '9'
  | _ => '*'

/-- Little-endian decimal digits of `n`; `fuel ≥ n` makes the recursion
total and never runs out. -/
def reprRev : Nat → Nat → List Nat
  | 0, _ => []
  | fuel + 1, n => if n = 0 then [] else n % 10 :: reprRev fuel (n / 10)

/-- Python `str(n)` for a natural number. -/
def natRepr (n : Nat) : List Char :=
  if n = 0 then ['0'] else ((reprRev n n).reverse.map digitChar)

/-- Python `f"{n:02d}"`: pad with leading zeros to width at least 2. -/
def pad2 (n : Nat) : List Char :=
  List.replicate (2 - (natRepr n).length) '0' ++ natRepr n

/-- Python `str.lower()` restricted to the ASCII letters that occur in
the three fixed summary labels. -/
def pyLower (c : Char) : Char :=
  if 65 ≤ c.toNat ∧ c.toNat ≤ 90 then Char.ofNat (c.toNat + 32) else c

/-- Python `summary.lower().replace(" ", "-")` from the UID template. -/
def slugify (s : List Char) : List Char :=
  (s.map pyLower).map (fun c => if c = ' ' then '-' else c)

/-- Model of `make_event(year, month, day_start, day_end, summary,
description)` (src/prodcal_ics.py lines 208-222).  A falsy description
(None or the empty string) is not added; `dtend` is the day after the
last included day; the UID is the f-string
`ru-prodcal-{year}{month:02d}{day_start:02d}-{day_end:02d}-{slug}`. -/
def make_event (year month dayStart dayEnd : Nat) (summary : List Char)
    (description : Option (List Char)) (now : Nat) : VEvent :=
  { summary := summary
    description :=
      match description with
      | some d => if d = [] then none else some d
      | none => none
    dtstart := ⟨year, month, dayStart⟩
    dtend := nextDay ⟨year, month, dayEnd⟩
    dtstamp := now
    uid := "ru-prodcal-".data ++ natRepr year ++ pad2 month ++ pad2 dayStart
      ++ "-".data ++ pad2 dayEnd ++ "-".data ++ slugify summary }

/-- A month's mapping day-of-month to classification.  Python dicts keep
insertion order, so the model is an association list without duplicate
keys; `dictInsert` reproduces dict assignment (update in place or append). -/
def MonthMap : Type := List (Nat × (DayKind × Option (List Char)))

instance : DecidableEq MonthMap := by
  unfold MonthMap; infer_instance

instance : Inhabited MonthMap := ⟨([] : List (Nat × (DayKind × Option (List Char))))⟩

/-- Python `d[k] = v` on an insertion-ordered dict. -/
def dictInsert (k : Nat) (v : DayKind × Option (List Char)) : MonthMap → MonthMap
  | [] => [(k, v)]
  | (k', v') :: rest =>
    if k' = k then (k', v) :: rest else (k', v') :: dictInsert k v rest

/-- The body of the set comprehension
`{desc_lookup.get(x) for x in chunk if desc_lookup.get(x)}`: the name
stored for a day, kept only when truthy (present and nonempty). -/
def truthyName (descLookup : List (Nat × List Char)) (x : Nat) : Option (List Char) :=
  match descLookup.lookup x with
  | some v => if v = [] then none else some v
  | none => none

/-- The description computation of `add_grouped` (src/prodcal_ics.py
lines 239-244): collect the distinct truthy names of the chunk's days
(`names = set(...)` modelled as a deduplicated list) and attach the name
only when there is exactly one (`next(iter(names))`). -/
def chunkDescription (chunk : List Nat) (descLookup : List (Nat × List Char)) :
    Option (List Char) :=
  let names := (chunk.filterMap (truthyName descLookup)).dedup
  match names with
  | [n] => some n
  | _ => none

/-- Model of the inner helper `add_grouped(days, summary, desc_lookup)`
of `generate_events` (src/prodcal_ics.py lines 235-245): one event per
chunk; an absent or empty (falsy) lookup dict yields no description. -/
def add_grouped (year month : Nat) (days : List Nat) (summary : List Char)
    (descLookup : Option (List (Nat × List Char))) (now : Nat) : List VEvent :=
  (group_consecutive_days days).flatMap (fun run =>
    (split_run_into_chunks run MAX_SPAN_DAYS).map (fun chunk =>
      let description :=
        match descLookup with
        | some dl => if dl = [] then none else chunkDescription chunk dl
        | none => none
      make_event year month (chunk.headD 0) (chunk.getLastD 0) summary description now))

/-- One month's slice of `generate_events` (src/prodcal_ics.py lines
228-252): partition the map's days by kind (in dict order), build the
holiday-name lookup `{d: (month_map[d][1] or "")}` and emit day-off,
holiday and shortened events in that order. -/
def monthEvents (year month : Nat) (monthMap : MonthMap) (now : Nat) : List VEvent :=
  let dayoffDays := (monthMap.filter (fun p => p.2.1 == DayKind.dayoff)).map (·.1)
  let holidayDays := (monthMap.filter (fun p => p.2.1 == DayKind.holiday)).map (·.1)
  let shortenedDays := (monthMap.filter (fun p => p.2.1 == DayKind.shortened)).map (·.1)
  let holidayDesc := holidayDays.map (fun d =>
    (d, match monthMap.lookup d with
        | some (_, some nm) => nm
        | _ => []))
  add_grouped year month dayoffDays "Day off".data none now
    ++ add_grouped year month holidayDays "Holiday".data (some holidayDesc) now
    ++ add_grouped year month shortenedDays "Shortened workday".data none now

/-- Model of `generate_events(year, months_maps)` (src/prodcal_ics.py
lines 225-254); `enumerate(months_maps, start=1)` numbers the months. -/
def generate_events (year : Nat) (monthsMaps : List MonthMap) (now : Nat) : List VEvent :=
  monthsMaps.enum.flatMap (fun p => monthEvents year (p.1 + 1) p.2 now)

/-- The calendar object of `generate_calendar` (src/prodcal_ics.py lines
291-304): feed metadata plus the components in the order they were
added.  The serializer (external library) emits components in this
order, so the serialized byte stream orders events exactly as the
`events` field does. -/
structure VCalendar where
  prodid : List Char
  version : List Char
  calscale : List Char
  pubMethod : List Char
  calName : List Char
  xwrCalName : List Char
  xwrCalDesc : List Char
  events : List VEvent
deriving DecidableEq

/-- Model of `generate_calendar(events)` (src/prodcal_ics.py lines
291-304).  Events are added in list order; no reordering happens. -/
def generate_calendar (events : List VEvent) : VCalendar :=
  { prodid := "-//ru-prodcal-ics//Ru Working Days Calendar//EN".data
    version := "2.0".data
    calscale := "GREGORIAN".data
    pubMethod := "PUBLISH".data
    calName := "Ru Working Days Calendar".data
    xwrCalName := "Ru Working Days Calendar".data
    xwrCalDesc := "Working days calendar for Russia: day off, holiday, shortened workday (data source: hh.ru).".data
    events := events }

/-- One `li` day cell as observed by `parse_months_old_layout`: its full
text content, the text nodes of its nested calendar-hint divs, and the
joined value of its class attribute. -/
structure LiElem where
  dayRaw : List Char
  hintTexts : List (List Char)
  classes : List Char

/-- A month container of the old layout: its day cells in document order. -/
def MonthElem : Type := List LiElem

/-- The HTML tree, reduced to the two queries the program performs on it:
the old-layout month containers
(`tree.xpath("//div[@class=...]/..")`) and the flat text
(`tree.text_content()`). -/
structure PageTree where
  monthContainers : List MonthElem
  textContent : List Char

/-- Python regex word characters (`\w`) for the alphabets that occur on
the page: ASCII alphanumerics, underscore and Cyrillic letters. -/
def isWordChar (c : Char) : Bool :=
  c.isAlphanum || c = '_' || (0x400 ≤ c.toNat && c.toNat ≤ 0x4ff)

/-- The regex match `re.match(r"^\s*(\d{1,2})\b", day_raw)`
(src/prodcal_ics.py line 90): optional leading whitespace, a one- or
two-digit number, then a word boundary.  A run of three or more digits
never matches (backtracking cannot place the boundary inside the run). -/
def extractLeadingDay (s : List Char) : Option Nat :=
  let s1 := s.dropWhile isPySpace
  let ds := s1.takeWhile Char.isDigit
  let boundary :=
    match s1.drop ds.length with
    | [] => true
    | c :: _ => !isWordChar c
  if (ds.length = 1 ∨ ds.length = 2) ∧ boundary = true then some (charsVal ds)
  else none

/-- Python `" ".join(parts)`. -/
def joinWithSpace : List (List Char) → List Char
  | [] => []
  | [s] => s
  | s :: t :: rest => s ++ ' ' :: joinWithSpace (t :: rest)

/-- The body of the `for li in lis` loop of `parse_months_old_layout`
(src/prodcal_ics.py lines 87-101): extract the day number, assemble the
hint text `" ".join(t.strip() for t in hint if t.strip()).strip()`,
classify, and store any classification in the month map. -/
def liDay (mm : MonthMap) (li : LiElem) : MonthMap :=
  match extractLeadingDay li.dayRaw with
  | none => mm
  | some day =>
    let hintText := pythonStrip
      (joinWithSpace ((li.hintTexts.map pythonStrip).filter (fun t => !t.isEmpty)))
    match classify_day_type hintText li.classes with
    | some cls => dictInsert day cls mm
    | none => mm

/-- Model of `parse_months_old_layout(tree)` (src/prodcal_ics.py lines
68-105): yields `[]` unless exactly 12 month containers are found,
otherwise one month map per container. -/
def parse_months_old_layout (tree : PageTree) : List MonthMap :=
  if tree.monthContainers.length ≠ 12 then []
  else tree.monthContainers.map (fun m => m.foldl liDay ([] : MonthMap))

/-- Helper for `findSub`: first index at or after `i` where `pat` starts. -/
def findSubAux (pat : List Char) : List Char → Nat → Option Nat
  | [], i => if pat.isPrefixOf ([] : List Char) then some i else none
  | c :: rest, i =>
    if pat.isPrefixOf (c :: rest) then some i else findSubAux pat rest (i + 1)

/-- Python `text.find(pat)`: first index of the substring, or -1. -/
def findSub (t pat : List Char) : Int :=
  match findSubAux pat t 0 with
  | some i => (i : Int)
  | none => -1

/-- Python slice `t[s:e]` for the non-negative indices that occur here
(an empty list when `e ≤ s`). -/
def pySlice (t : List Char) (s e : Int) : List Char :=
  (t.drop s.toNat).take (e - s).toNat

/-- The month names (src/prodcal_ics.py lines 14-17). -/
def MONTHS_RU : List (List Char) :=
  ["Январь".data, "Февраль".data, "Март".data, "Апрель".data, "Май".data,
   "Июнь".data, "Июль".data, "Август".data, "Сентябрь".data, "Октябрь".data,
   "Ноябрь".data, "Декабрь".data]

/-- One attempt of the regex `(?:^|\s)(\d{1,2})(?=\s+)` with the digits
starting at the head of the list: greedy `\d{1,2}` first tries two
digits, then one; the lookahead requires a whitespace character right
after the digits (so a match never sits at the end of the text), and a
run of three or more digits never matches.  Returns the day value and
the rest of the text from `m.end()` on. -/
def tryDigits : List Char → Option (Nat × List Char)
  | d1 :: d2 :: c :: rest =>
    if d1.isDigit && d2.isDigit && isPySpace c then
      some (charsVal [d1, d2], c :: rest)
    else if d1.isDigit && isPySpace d2 then
      some (charsVal [d1], d2 :: c :: rest)
    else none
  | [d1, d2] =>
    if d1.isDigit && isPySpace d2 then some (charsVal [d1], [d2]) else none
  | _ => none

/-- The scan of `re.finditer(r"(?:^|\s)(\d{1,2})(?=\s+)", chunk)`
(src/prodcal_ics.py line 139): at the start of the text the `^` branch
lets the digits begin immediately; elsewhere the `\s` branch consumes
one whitespace character before the digits.  After a match the scan
resumes at `m.end()` (the consumed lookahead-free position); otherwise
it advances one character.  `fuel` bounds the recursion; the caller
passes `chunk.length + 1`, which suffices because every step consumes at
least one character. -/
def scanChunk (maxFuel : Nat) (l : List Char) (isStart : Bool) : List (Nat × List Char) :=
  match maxFuel with
  | 0 => []
  | fuel + 1 =>
    match l with
    | [] => []
    | c :: rest =>
      match (if isStart then tryDigits (c :: rest) else none) with
      | some (d, after) => (d, after) :: scanChunk fuel after false
      | none =>
        match (if isPySpace c then tryDigits rest else none) with
        | some (d, after) => (d, after) :: scanChunk fuel after false
        | none => scanChunk fuel rest false

/-- The per-chunk loop of `parse_months_text_fallback` (src/prodcal_ics.py
lines 139-156): for each matched day number take the 120-character
window after the match, strip it, classify it inline and store the
classification. -/
def buildFallbackMonthMap (chunk : List Char) : MonthMap :=
  (scanChunk (chunk.length + 1) chunk true).foldl (fun mm p =>
    let window := pythonStrip (p.2.take 120)
    match fallback_classify_window window with
    | some kind => dictInsert p.1 kind mm
    | none => mm) ([] : MonthMap)

/-- Model of `parse_months_text_fallback(tree)` (src/prodcal_ics.py lines
108-160): normalize no-break spaces, locate the 12 month names, raise
(Except.error) when any is missing, otherwise slice the text into 12
chunks and scan each one.  The success branch always yields exactly 12
month maps. -/
def parse_months_text_fallback (tree : PageTree) : Except (List Char) (List MonthMap) :=
  let text := tree.textContent.map (fun c => if c = '\xa0' then ' ' else c)
  let positions := MONTHS_RU.map (fun nm => findSub text nm)
  if positions.any (fun p => p == -1) then
    Except.error "Could not find all month names in HH page text (layout changed).".data
  else
    Except.ok ((List.range 12).map (fun i =>
      let start := positions.getD i 0
      let stop := if i < 11 then positions.getD (i + 1) 0 else (text.length : Int)
      buildFallbackMonthMap (pySlice text start stop)))

/-- Model of `get_days_by_months_with_types(year)` (src/prodcal_ics.py
lines 163-179).  The network fetch is the `page` argument: `none` is the
404 outcome (`fetch_hh_calendar_page` returning None), `some tree` a
parsed page.  `if months and len(months) == 12` tests truthiness
(nonemptiness) and length, as in the source. -/
def get_days_by_months_with_types (page : Option PageTree) (year : Nat) :
    Except (List Char) (Option (List MonthMap)) :=
  match page with
  | none => Except.ok none
  | some tree =>
    let months := parse_months_old_layout tree
    if months ≠ [] ∧ months.length = 12 then Except.ok (some months)
    else
      match parse_months_text_fallback tree with
      | Except.error e => Except.error e
      | Except.ok months2 =>
        if months2 ≠ [] ∧ months2.length = 12 then Except.ok (some months2)
        else Except.error ("Could not parse 12 months for year ".data
          ++ natRepr year ++ " (HH layout changed).".data)

/-- Python `range(start, stop)` for the year loop. -/
def yearRange (startYear endYear : Nat) : List Nat :=
  List.range' startYear (endYear + 1 - startYear)

/-- The orchestrator loop of `__main__` (src/prodcal_ics.py lines
323-329) over a list of years.  `f` is the per-year outcome of
`get_days_by_months_with_types` in a run where no exception escapes:
`none` both for the 404 outcome and for a falsy result, which makes the
loop `break`.  Returns the accumulated events and the list of years for
which a fetch was attempted. -/
def mainLoop (f : Nat → Option (List MonthMap)) (now : Nat) :
    List Nat → List VEvent × List Nat
  | [] => ([], [])
  | y :: ys =>
    match f y with
    | none => ([], [y])
    | some mm =>
      if mm = [] then ([], [y])
      else
        let rest := mainLoop f now ys
        (generate_events y mm now ++ rest.1, y :: rest.2)

end ProdcalIcs

namespace ProdcalIcs

instance {e a : Type} [DecidableEq e] [DecidableEq a] : DecidableEq (Except e a) := fun x y =>
  match x, y with
  | Except.ok u, Except.ok v =>
    if h : u = v then isTrue (by rw [h]) else isFalse (fun hh => h (Except.ok.inj hh))
  | Except.error u, Except.error v =>
    if h : u = v then isTrue (by rw [h]) else isFalse (fun hh => h (Except.error.inj hh))
  | Except.ok _, Except.error _ => isFalse (fun hh => Except.noConfusion hh)
  | Except.error _, Except.ok _ => isFalse (fun hh => Except.noConfusion hh)

/-- Forget the generation timestamp of an event (used to compare two
runs of the builder up to the wall clock). -/
def eraseStamp (e : VEvent) : VEvent :=
  { e with dtstamp := 0 }

/-- The three fixed summary labels passed to `make_event`
(src/prodcal_ics.py lines 250-252). -/
def uidLabels : List (List Char) :=
  ["Day off".data, "Holiday".data, "Shortened workday".data]

/-!  Lemmas about the run grouper. -/

theorem groupConsecAux_ne_nil (d : Nat) (rest : List Nat) : groupConsecAux d rest ≠ [] := by
  cases rest with
  | nil => simp [groupConsecAux]
  | cons e rest =>
    simp only [groupConsecAux]
    split
    · split <;> simp
    · simp

theorem groupConsecAux_flatten (rest : List Nat) :
    ∀ d, (groupConsecAux d rest).flatten = d :: rest := by
  induction rest with
  | nil => intro d; simp [groupConsecAux]
  | cons e rest ih =>
    intro d
    simp only [groupConsecAux]
    by_cases h : e = d + 1
    · rw [if_pos h]
      rcases hg : groupConsecAux e rest with _ | ⟨g, gs⟩
      · exact absurd hg (groupConsecAux_ne_nil e rest)
      · have hfe := ih e
        rw [hg] at hfe
        simp only [List.flatten_cons] at hfe ⊢
        simp [hfe]
    · rw [if_neg h]
      simp [ih e]

theorem groupConsecAux_head (d : Nat) (rest : List Nat) :
    ∃ t gs, groupConsecAux d rest = (d :: t) :: gs := by
  cases rest with
  | nil => exact ⟨[], [], rfl⟩
  | cons e rest =>
    simp only [groupConsecAux]
    by_cases h : e = d + 1
    · rw [if_pos h]
      rcases hg : groupConsecAux e rest with _ | ⟨g, gs⟩
      · exact absurd hg (groupConsecAux_ne_nil e rest)
      · exact ⟨g, gs, rfl⟩
    · rw [if_neg h]
      exact ⟨[], groupConsecAux e rest, rfl⟩

theorem groupConsecAux_chain (rest : List Nat) :
    ∀ d g, g ∈ groupConsecAux d rest → List.Chain' (fun a b => b = a + 1) g := by
  induction rest with
  | nil =>
    intro d g hg
    simp only [groupConsecAux, List.mem_singleton] at hg
    subst hg
    simp
  | cons e rest ih =>
    intro d g hg
    simp only [groupConsecAux] at hg
    by_cases h : e = d + 1
    · rw [if_pos h] at hg
      obtain ⟨t, gs, hshape⟩ := groupConsecAux_head e rest
      rw [hshape] at hg
      rcases List.mem_cons.mp hg with rfl | hmem
      · have hc : List.Chain' (fun a b => b = a + 1) (e :: t) :=
          ih e (e :: t) (by rw [hshape]; exact List.mem_cons_self _ _)
        exact List.chain'_cons.mpr ⟨h, hc⟩
      · exact ih e g (by rw [hshape]; exact List.mem_cons_of_mem _ hmem)
    · rw [if_neg h] at hg
      rcases List.mem_cons.mp hg with rfl | hmem
      · simp
      · exact ih e g hmem

theorem group_consecutive_days_flatten (days : List Nat) :
    (group_consecutive_days days).flatten = days.insertionSort (· ≤ ·) := by
  unfold group_consecutive_days
  rcases h : days.insertionSort (· ≤ ·) with _ | ⟨d, rest⟩ <;> simp [groupConsecAux_flatten]

theorem group_consecutive_days_chain (days : List Nat) :
    ∀ g ∈ group_consecutive_days days, List.Chain' (fun a b => b = a + 1) g := by
  unfold group_consecutive_days
  rcases h : days.insertionSort (· ≤ ·) with _ | ⟨d, rest⟩
  · simp
  · intro g hg
    exact groupConsecAux_chain rest d g hg

theorem groupConsecAux_mem_ne_nil (rest : List Nat) :
    ∀ d g, g ∈ groupConsecAux d rest → g ≠ [] := by
  induction rest with
  | nil =>
    intro d g hg
    simp only [groupConsecAux, List.mem_singleton] at hg
    subst hg
    simp
  | cons e rest ih =>
    intro d g hg
    simp only [groupConsecAux] at hg
    by_cases h : e = d + 1
    · rw [if_pos h] at hg
      obtain ⟨t, gs, hshape⟩ := groupConsecAux_head e rest
      rw [hshape] at hg
      rcases List.mem_cons.mp hg with rfl | hmem
      · simp
      · exact ih e g (by rw [hshape]; exact List.mem_cons_of_mem _ hmem)
    · rw [if_neg h] at hg
      rcases List.mem_cons.mp hg with rfl | hmem
      · simp
      · exact ih e g hmem

theorem group_consecutive_days_ne_nil (days : List Nat) :
    ∀ g ∈ group_consecutive_days days, g ≠ [] := by
  unfold group_consecutive_days
  rcases h : days.insertionSort (· ≤ ·) with _ | ⟨d, rest⟩
  · simp
  · intro g hg
    exact groupConsecAux_mem_ne_nil rest d g hg

/-!  Lemmas about the chunk splitter. -/

theorem chunksLoop_flatten (maxLen : Nat) (h1 : 1 ≤ maxLen) :
    ∀ fuel l, List.length l ≤ fuel → (chunksLoop maxLen fuel l).flatten = l := by
  intro fuel
  induction fuel with
  | zero =>
    intro l hl
    rw [List.length_eq_zero.mp (Nat.le_zero.mp hl)]
    simp [chunksLoop]
  | succ fuel ih =>
    intro l hl
    cases l with
    | nil => simp [chunksLoop]
    | cons a l =>
      simp only [chunksLoop, List.flatten_cons]
      have hd : ((a :: l).drop maxLen).length ≤ fuel := by
        rw [List.length_drop]
        simp only [List.length_cons] at hl ⊢
        omega
      rw [ih _ hd]
      exact List.take_append_drop maxLen (a :: l)

theorem chunksLoop_mem_length (maxLen : Nat) :
    ∀ fuel l c, c ∈ chunksLoop maxLen fuel l → c.length ≤ maxLen := by
  intro fuel
  induction fuel with
  | zero => intro l c hc; simp [chunksLoop] at hc
  | succ fuel ih =>
    intro l c hc
    cases l with
    | nil => simp [chunksLoop] at hc
    | cons a l =>
      simp only [chunksLoop] at hc
      rcases List.mem_cons.mp hc with rfl | hmem
      · simp [List.length_take]
      · exact ih _ c hmem

theorem chunksLoop_mem_ne_nil (maxLen : Nat) (h1 : 1 ≤ maxLen) :
    ∀ fuel l c, c ∈ chunksLoop maxLen fuel l → c ≠ [] := by
  intro fuel
  induction fuel with
  | zero => intro l c hc; simp [chunksLoop] at hc
  | succ fuel ih =>
    intro l c hc
    cases l with
    | nil => simp [chunksLoop] at hc
    | cons a l =>
      simp only [chunksLoop] at hc
      rcases List.mem_cons.mp hc with rfl | hmem
      · rcases maxLen with _ | m
        · omega
        · simp [List.take_succ_cons]
      · exact ih _ c hmem

theorem chunksLoop_mem_chain (maxLen : Nat) {R : Nat → Nat → Prop} :
    ∀ fuel l, List.Chain' R l → ∀ c ∈ chunksLoop maxLen fuel l, List.Chain' R c := by
  intro fuel
  induction fuel with
  | zero => intro l _ c hc; simp [chunksLoop] at hc
  | succ fuel ih =>
    intro l hchain c hc
    cases l with
    | nil => simp [chunksLoop] at hc
    | cons a l =>
      simp only [chunksLoop] at hc
      rcases List.mem_cons.mp hc with rfl | hmem
      · exact hchain.take _
      · exact ih _ (hchain.drop _) c hmem

theorem split_run_into_chunks_flatten (run : List Nat) (maxLen : Nat) (h1 : 1 ≤ maxLen) :
    (split_run_into_chunks run maxLen).flatten = run := by
  unfold split_run_into_chunks
  split
  · simp
  · exact chunksLoop_flatten maxLen h1 run.length run le_rfl

theorem split_run_into_chunks_mem_length (run : List Nat) (maxLen : Nat) :
    ∀ c ∈ split_run_into_chunks run maxLen, c.length ≤ maxLen := by
  unfold split_run_into_chunks
  split
  · intro c hc
    rcases List.mem_singleton.mp hc with rfl
    assumption
  · exact fun c hc => chunksLoop_mem_length maxLen _ _ c hc

theorem split_run_into_chunks_mem_ne_nil (run : List Nat) (maxLen : Nat)
    (h1 : 1 ≤ maxLen) (hrun : run ≠ []) :
    ∀ c ∈ split_run_into_chunks run maxLen, c ≠ [] := by
  unfold split_run_into_chunks
  split
  · intro c hc
    rcases List.mem_singleton.mp hc with rfl
    exact hrun
  · exact fun c hc => chunksLoop_mem_ne_nil maxLen h1 _ _ c hc

theorem split_run_into_chunks_mem_chain (run : List Nat) (maxLen : Nat)
    {R : Nat → Nat → Prop} (hchain : List.Chain' R run) :
    ∀ c ∈ split_run_into_chunks run maxLen, List.Chain' R c := by
  unfold split_run_into_chunks
  split
  · intro c hc
    rcases List.mem_singleton.mp hc with rfl
    exact hchain
  · exact fun c hc => chunksLoop_mem_chain maxLen _ _ hchain c hc

/-!  Lemmas about the composed grouper, `groupedChunks`. -/

theorem flatten_flatMap_eq (L : List (List Nat)) (f : List Nat → List (List Nat))
    (h : ∀ r ∈ L, (f r).flatten = r) : (L.flatMap f).flatten = L.flatten := by
  induction L with
  | nil => simp
  | cons a L ih =>
    simp only [List.flatMap_cons, List.flatten_append, List.flatten_cons]
    rw [h a (List.mem_cons_self _ _), ih (fun r hr => h r (List.mem_cons_of_mem _ hr))]

theorem groupedChunks_flatten (days : List Nat) :
    (groupedChunks days).flatten = days.insertionSort (· ≤ ·) := by
  unfold groupedChunks
  rw [flatten_flatMap_eq _ _ (fun r _ =>
    split_run_into_chunks_flatten r MAX_SPAN_DAYS (by norm_num [MAX_SPAN_DAYS]))]
  exact group_consecutive_days_flatten days

theorem groupedChunks_mem_chain (days : List Nat) :
    ∀ c ∈ groupedChunks days, List.Chain' (fun a b => b = a + 1) c := by
  intro c hc
  obtain ⟨run, hrun, hcin⟩ := List.mem_flatMap.mp hc
  exact split_run_into_chunks_mem_chain run MAX_SPAN_DAYS
    (group_consecutive_days_chain days run hrun) c hcin

theorem groupedChunks_mem_length (days : List Nat) :
    ∀ c ∈ groupedChunks days, c.length ≤ MAX_SPAN_DAYS := by
  intro c hc
  obtain ⟨run, _, hcin⟩ := List.mem_flatMap.mp hc
  exact split_run_into_chunks_mem_length run MAX_SPAN_DAYS c hcin

theorem groupedChunks_mem_ne_nil (days : List Nat) :
    ∀ c ∈ groupedChunks days, c ≠ [] := by
  intro c hc
  obtain ⟨run, hrun, hcin⟩ := List.mem_flatMap.mp hc
  exact split_run_into_chunks_mem_ne_nil run MAX_SPAN_DAYS
    (by norm_num [MAX_SPAN_DAYS]) (group_consecutive_days_ne_nil days run hrun) c hcin

/-- C1, as stated, fails on inputs with duplicated day numbers: for the
input list [1, 1] the two produced groups both contain the day 1, so the
groups are not pairwise disjoint. -/
theorem c1_counterexample :
    groupedChunks [1, 1] = [[1], [1]] ∧
    ¬ List.Pairwise List.Disjoint (groupedChunks [1, 1]) := by
  have hval : groupedChunks [1, 1] = [[1], [1]] := by decide
  refine ⟨hval, fun h => ?_⟩
  rw [hval] at h
  rcases List.pairwise_cons.mp h with ⟨hd, _⟩
  have hdis : List.Disjoint [1] [1] := hd [1] (by simp)
  exact hdis (a := 1) (by simp) (by simp)

/-- C1 (amended): for every duplicate-free list of day numbers, applying
group_consecutive_days and then split_run_into_chunks with the fixed
maximum span 7 yields groups that are (a) pairwise disjoint, (b) each
internally consecutive, (c) each of length at most 7, and (d) whose
concatenation is exactly the sorted input, hence reproduces the input
set. -/
theorem c1_grouping (days : List Nat) (hnd : days.Nodup) :
    List.Pairwise List.Disjoint (groupedChunks days) ∧
    (∀ c ∈ groupedChunks days, List.Chain' (fun a b => b = a + 1) c) ∧
    (∀ c ∈ groupedChunks days, c.length ≤ MAX_SPAN_DAYS) ∧
    (groupedChunks days).flatten = days.insertionSort (· ≤ ·) ∧
    (groupedChunks days).flatten.toFinset = days.toFinset := by
  have hperm : (days.insertionSort (· ≤ ·)).Perm days := List.perm_insertionSort _ days
  have hflat := groupedChunks_flatten days
  refine ⟨?_, groupedChunks_mem_chain days, groupedChunks_mem_length days, hflat, ?_⟩
  · have hnodup : (groupedChunks days).flatten.Nodup := by
      rw [hflat]
      exact hperm.symm.nodup hnd
    exact (List.nodup_flatten.mp hnodup).2
  · ext a
    simp only [List.mem_toFinset, hflat]
    exact hperm.mem_iff

/-- Witness for c1_grouping at a concrete duplicate-free input. -/
theorem c1_grouping_witness :
    ([1, 2, 3, 9, 10] : List Nat).Nodup ∧
    List.Pairwise List.Disjoint (groupedChunks [1, 2, 3, 9, 10]) :=
  ⟨by decide, (c1_grouping [1, 2, 3, 9, 10] (by decide)).1⟩

/-!  C4: event order in the generated feed. -/

theorem headD_mem {l : List Nat} (h : l ≠ []) : l.headD 0 ∈ l := by
  cases l with
  | nil => exact absurd rfl h
  | cons a t => simp

theorem add_grouped_eq_map (year month : Nat) (days : List Nat) (summary : List Char)
    (dl : Option (List (Nat × List Char))) (now : Nat) :
    add_grouped year month days summary dl now =
      (groupedChunks days).map (fun chunk =>
        make_event year month (chunk.headD 0) (chunk.getLastD 0) summary
          (match dl with
           | some d => if d = [] then none else chunkDescription chunk d
           | none => none) now) := by
  cases dl with
  | none => simp only [add_grouped, groupedChunks, List.map_flatMap]
  | some d => simp only [add_grouped, groupedChunks, List.map_flatMap]

theorem groupedChunks_heads_sorted (days : List Nat) :
    List.Pairwise (fun a b : List Nat => a.headD 0 ≤ b.headD 0) (groupedChunks days) := by
  have hs : List.Pairwise (· ≤ ·) (groupedChunks days).flatten := by
    rw [groupedChunks_flatten]
    exact List.sorted_insertionSort _ days
  have hp := (List.pairwise_flatten.mp hs).2
  refine hp.imp_of_mem ?_
  intro a b ha hb hab
  exact hab _ (headD_mem (groupedChunks_mem_ne_nil days a ha))
    _ (headD_mem (groupedChunks_mem_ne_nil days b hb))

/-- C4 (amended): the assembler applies no global sort; instead, within
one month and one day type the builder emits events in increasing order
of start date (chunk heads ascend), and the calendar object keeps the
event list exactly in the order the events were added. -/
theorem c4_per_type_sorted (year month : Nat) (days : List Nat) (summary : List Char)
    (dl : Option (List (Nat × List Char))) (now : Nat) :
    List.Sorted dateLE
      ((add_grouped year month days summary dl now).map (fun e => e.dtstart)) ∧
    ∀ evs : List VEvent, (generate_calendar evs).events = evs := by
  constructor
  · rw [add_grouped_eq_map, List.map_map]
    have hh := groupedChunks_heads_sorted days
    rw [List.Sorted, List.pairwise_map]
    refine hh.imp ?_
    intro a b hab
    exact Or.inr ⟨rfl, Or.inr ⟨rfl, hab⟩⟩
  · intro evs
    rfl

/-- C4, as stated, fails: within a month the builder emits all day-off
events before all holiday events, so a month holding a holiday on day 1
and a plain day off on day 5 yields a feed whose events start on day 5
and then day 1 — not ordered by start date. -/
theorem c4_counterexample :
    ((generate_events 2024 [[(5, (DayKind.dayoff, none)), (1, (DayKind.holiday, none))]] 0).map
      (fun e => e.dtstart) = [⟨2024, 1, 5⟩, ⟨2024, 1, 1⟩]) ∧
    (generate_calendar (generate_events 2024
        [[(5, (DayKind.dayoff, none)), (1, (DayKind.holiday, none))]] 0)).events =
      generate_events 2024 [[(5, (DayKind.dayoff, none)), (1, (DayKind.holiday, none))]] 0 ∧
    ¬ List.Sorted dateLE
      ((generate_events 2024 [[(5, (DayKind.dayoff, none)), (1, (DayKind.holiday, none))]] 0).map
        (fun e => e.dtstart)) := by
  have hval : (generate_events 2024
      [[(5, (DayKind.dayoff, none)), (1, (DayKind.holiday, none))]] 0).map
      (fun e => e.dtstart) = [⟨2024, 1, 5⟩, ⟨2024, 1, 1⟩] := by decide
  refine ⟨hval, rfl, fun h => ?_⟩
  rw [List.Sorted, hval] at h
  have hle : dateLE ⟨2024, 1, 5⟩ ⟨2024, 1, 1⟩ :=
    (List.pairwise_cons.mp h).1 _ (by simp)
  exact absurd hle (by decide)

/-!  C5: run-to-run determinism of the generated feed. -/

theorem add_grouped_eraseStamp (year month : Nat) (days : List Nat) (summary : List Char)
    (dl : Option (List (Nat × List Char))) (now1 now2 : Nat) :
    (add_grouped year month days summary dl now1).map eraseStamp =
      (add_grouped year month days summary dl now2).map eraseStamp := by
  rw [add_grouped_eq_map, add_grouped_eq_map, List.map_map, List.map_map]
  rfl

theorem monthEvents_eraseStamp (year month : Nat) (monthMap : MonthMap) (now1 now2 : Nat) :
    (monthEvents year month monthMap now1).map eraseStamp =
      (monthEvents year month monthMap now2).map eraseStamp := by
  simp only [monthEvents, List.map_append]
  rw [add_grouped_eraseStamp year month _ _ _ now1 now2,
    add_grouped_eraseStamp year month _ _ _ now1 now2,
    add_grouped_eraseStamp year month _ _ _ now1 now2]

/-- C5 (amended): two runs over unchanged input differ at most in the
generation timestamp: erasing the DTSTAMP field from every event makes
the two runs' feeds identical (in particular summaries, dates,
descriptions and UIDs are all run-independent). -/
theorem c5_stamp_only_difference (year : Nat) (maps : List MonthMap) (now1 now2 : Nat) :
    (generate_events year maps now1).map eraseStamp =
      (generate_events year maps now2).map eraseStamp := by
  simp only [generate_events, List.map_flatMap]
  congr 1
  funext p
  exact monthEvents_eraseStamp year (p.1 + 1) p.2 now1 now2

/-- C5, as stated, fails: the builder stamps each event with the wall
clock (`dtstamp`), so two runs at different times produce different
serialized feeds for unchanged input. -/
theorem c5_counterexample :
    generate_calendar (generate_events 2024 [[(1, (DayKind.dayoff, none))]] 0) ≠
      generate_calendar (generate_events 2024 [[(1, (DayKind.dayoff, none))]] 1) := by
  decide

/-!  C7: description attachment for holiday chunks. -/

theorem filterMap_eq_replicate_of_mem {chunk : List Nat} {f : Nat → Option (List Char)}
    {n : List Char} (h : ∀ x ∈ chunk, f x = some n) :
    chunk.filterMap f = List.replicate chunk.length n := by
  induction chunk with
  | nil => rfl
  | cons a t ih =>
    rw [List.filterMap_cons, h a (List.mem_cons_self _ _), List.length_cons,
      List.replicate_succ, ih (fun x hx => h x (List.mem_cons_of_mem _ hx))]

theorem dedup_replicate_succ (n : List Char) (k : Nat) :
    (List.replicate (k + 1) n).dedup = [n] := by
  induction k with
  | zero => simp
  | succ k ih =>
    rw [List.replicate_succ, List.dedup_cons_of_mem (by simp [List.mem_replicate]), ih]

/-- C7 (amended): the builder attaches a description exactly when the
chunk's days carry exactly one distinct nonempty name.  So: if every day
of a nonempty chunk carries the same nonempty name, that name is
attached; if two days carry distinct nonempty names, the description is
omitted; but a chunk mixing one nonempty name with unnamed days still
gets that name attached (the claim's "if names differ, omit" fails
there). -/
theorem c7_description (chunk : List Nat) (dl : List (Nat × List Char)) (n : List Char) :
    (chunk ≠ [] → (∀ x ∈ chunk, dl.lookup x = some n) → n ≠ [] →
      chunkDescription chunk dl = some n) ∧
    (∀ x1 x2 n1 n2, x1 ∈ chunk → x2 ∈ chunk →
      dl.lookup x1 = some n1 → dl.lookup x2 = some n2 →
      n1 ≠ [] → n2 ≠ [] → n1 ≠ n2 → chunkDescription chunk dl = none) := by
  constructor
  · intro hne hall hn
    have hf : ∀ x ∈ chunk, truthyName dl x = some n := by
      intro x hx
      simp only [truthyName, hall x hx]
      rw [if_neg hn]
    simp only [chunkDescription]
    rw [filterMap_eq_replicate_of_mem hf]
    cases chunk with
    | nil => exact absurd rfl hne
    | cons a t =>
      rw [List.length_cons, dedup_replicate_succ]
  · intro x1 x2 n1 n2 h1 h2 hl1 hl2 hn1 hn2 hnen
    have hm1 : n1 ∈ (chunk.filterMap (truthyName dl)).dedup :=
      List.mem_dedup.mpr (List.mem_filterMap.mpr
        ⟨x1, h1, by simp only [truthyName, hl1]; rw [if_neg hn1]⟩)
    have hm2 : n2 ∈ (chunk.filterMap (truthyName dl)).dedup :=
      List.mem_dedup.mpr (List.mem_filterMap.mpr
        ⟨x2, h2, by simp only [truthyName, hl2]; rw [if_neg hn2]⟩)
    simp only [chunkDescription]
    rcases hnm : (chunk.filterMap (truthyName dl)).dedup with _ | ⟨m, _ | ⟨m2, rest⟩⟩
    · rfl
    · rw [hnm] at hm1 hm2
      rcases List.mem_singleton.mp hm1 with rfl
      rcases List.mem_singleton.mp hm2 with rfl
      exact absurd rfl hnen
    · rfl

/-- Witness for c7_description at a concrete uniform chunk. -/
theorem c7_description_witness :
    chunkDescription [1, 2] [(1, "X".data), (2, "X".data)] = some "X".data :=
  (c7_description [1, 2] [(1, "X".data), (2, "X".data)] "X".data).1
    (by decide) (by decide) (by decide)

/-- C7, as stated, fails on a chunk mixing a named holiday with an
unnamed one: day 1 carries the name "A", day 2 carries no name (stored
as the empty string), the names across the chunk differ, yet the
description "A" is attached rather than omitted. -/
theorem c7_counterexample :
    chunkDescription [1, 2] [(1, "A".data), (2, [])] = some "A".data ∧
    List.lookup 1 [(1, "A".data), (2, ([] : List Char))] ≠
      List.lookup 2 [(1, "A".data), (2, ([] : List Char))] := by
  constructor
  · decide
  · decide

/-!  C8: the orchestrator's stopping behaviour. -/

theorem mainLoop_stop (f : Nat → Option (List MonthMap)) (g : Nat → List MonthMap) (now : Nat) :
    ∀ (k start n : Nat), k < n →
      (∀ i, i < k → f (start + i) = some (g (start + i)) ∧ g (start + i) ≠ []) →
      f (start + k) = none →
      (mainLoop f now (List.range' start n)).1 =
        (List.range' start k).flatMap (fun y => generate_events y (g y) now) ∧
      (∀ z ∈ (mainLoop f now (List.range' start n)).2, z ≤ start + k) := by
  intro k
  induction k with
  | zero =>
    intro start n hk hfound hmiss
    rcases n with _ | m
    · exact absurd hk (by omega)
    · rw [Nat.add_zero] at hmiss
      rw [List.range'_succ]
      simp only [mainLoop, hmiss]
      refine ⟨rfl, ?_⟩
      intro z hz
      rcases List.mem_singleton.mp hz with rfl
      omega
  | succ k ih =>
    intro start n hk hfound hmiss
    rcases n with _ | m
    · exact absurd hk (by omega)
    · have h0 := hfound 0 (Nat.succ_pos k)
      rw [Nat.add_zero] at h0
      have ihm := ih (start + 1) m (by omega)
        (fun i hi => by
          have hfi := hfound (i + 1) (by omega)
          rwa [show start + (i + 1) = start + 1 + i by omega] at hfi)
        (by rwa [show start + 1 + k = start + (k + 1) by omega])
      rw [List.range'_succ]
      simp only [mainLoop, h0.1, if_neg h0.2]
      constructor
      · rw [List.range'_succ, List.flatMap_cons, ihm.1]
      · intro z hz
        rcases List.mem_cons.mp hz with rfl | hmem
        · omega
        · have := ihm.2 z hmem
          omega

/-- C8: for a requested year range and a year Y = start + k in it whose
fetch signals "not found" while all strictly earlier years in the range
were found (with nonempty data), the orchestrator's final event list is
exactly the concatenation of the strictly earlier years' events, and no
year later than Y is ever fetched. -/
theorem c8_orchestrator (f : Nat → Option (List MonthMap)) (g : Nat → List MonthMap)
    (now startYear endYear k : Nat) (hk : startYear + k ≤ endYear)
    (hfound : ∀ i, i < k → f (startYear + i) = some (g (startYear + i)) ∧ g (startYear + i) ≠ [])
    (hmiss : f (startYear + k) = none) :
    (mainLoop f now (yearRange startYear endYear)).1 =
      (List.range' startYear k).flatMap (fun y => generate_events y (g y) now) ∧
    (∀ z ∈ (mainLoop f now (yearRange startYear endYear)).2, z ≤ startYear + k) := by
  unfold yearRange
  exact mainLoop_stop f g now k startYear (endYear + 1 - startYear) (by omega) hfound hmiss

/-- Witness for c8_orchestrator: years 2024-2026 requested, 2024 found,
2025 missing; the feed holds exactly 2024's events and 2026 is never
fetched. -/
theorem c8_orchestrator_witness :
    (mainLoop
        (fun y => if y = 2024 then some [[(1, (DayKind.dayoff, none))]] else none)
        0 (yearRange 2024 2026)).1 =
      (List.range' 2024 1).flatMap
        (fun y => generate_events y [[(1, (DayKind.dayoff, none))]] 0) ∧
    (∀ z ∈ (mainLoop
        (fun y => if y = 2024 then some [[(1, (DayKind.dayoff, none))]] else none)
        0 (yearRange 2024 2026)).2, z ≤ 2025) :=
  c8_orchestrator
    (fun y => if y = 2024 then some [[(1, (DayKind.dayoff, none))]] else none)
    (fun _ => [[(1, (DayKind.dayoff, none))]]) 0 2024 2026 1 (by omega)
    (fun i hi => by
      have : i = 0 := by omega
      subst this
      exact ⟨by decide, by decide⟩)
    (by decide)

/-!  C10 and C2: classifier details. -/

/-- C10: a class attribute containing "shortened" forces the shortened
classification regardless of the hint text, and the bare hint
"Выходной день." (period, nothing after) is a holiday with no name, not
a plain day off. -/
theorem c10_class_marker :
    (∀ hint classes : List Char, strContains classes SHORTENED_MARK = true →
      classify_day_type hint classes = some (DayKind.shortened, none)) ∧
    classify_day_type "Выходной день.".data [] = some (DayKind.holiday, none) := by
  constructor
  · intro hint classes h
    simp only [classify_day_type, h]
    rfl
  · decide

/-- Witness for c10_class_marker: a day-off hint still classifies as
shortened when the class marker is present. -/
theorem c10_class_marker_witness :
    classify_day_type "Выходной день".data "calendar__item shortened".data =
      some (DayKind.shortened, none) :=
  c10_class_marker.1 "Выходной день".data "calendar__item shortened".data (by decide)

/-- C2, as stated, fails on the boundary input "Выходной день.": the
claim's rules classify it as DayOff (day-off marker with no following
name), but the code classifies it as Holiday with no name. -/
theorem c2_counterexample :
    classify_day_type "Выходной день.".data [] = some (DayKind.holiday, none) ∧
    specClassifyC2 "Выходной день.".data = some (DayKind.dayoff, none) ∧
    some (DayKind.holiday, (none : Option (List Char))) ≠
      some (DayKind.dayoff, (none : Option (List Char))) :=
  ⟨by decide, by decide, by decide⟩

/-- C2 (amended): with no class marker, the classifier follows the
prefix rules with the period deciding between the holiday and day-off
branches: pre-holiday marker gives ShortenedWorkday; day-off marker
followed by a period gives Holiday, named by the stripped text after the
period when nonempty and unnamed otherwise; day-off marker without a
period gives DayOff; anything else is unclassified. -/
theorem c2_amended_rules (t : List Char) :
    classify_day_type t [] = specClassifyC2Amended t := by
  have h : strContains [] SHORTENED_MARK = false := by decide
  simp only [classify_day_type, specClassifyC2Amended, h]
  rfl

/-!  C3: the two classification strategies. -/

theorem dropWhile_cons_self {p : Char → Bool} {y : Char} {Y : List Char}
    (h : List.dropWhile p (y :: Y) = y :: Y) : p y = false := by
  by_cases hp : p y = true
  · rw [List.dropWhile_cons, if_pos hp] at h
    have hlen : (List.dropWhile p Y).length ≤ Y.length := (List.dropWhile_sublist p).length_le
    rw [h] at hlen
    simp at hlen
  · simpa using hp

theorem dropWhile_append_singleton {p : Char → Bool} {y : Char} (h : p y = false) :
    ∀ A : List Char, List.dropWhile p (A ++ [y]) = List.dropWhile p A ++ [y] := by
  intro A
  induction A with
  | nil => simp [List.dropWhile_cons, h]
  | cons a A ih =>
    by_cases hp : p a = true
    · simp only [List.cons_append, List.dropWhile_cons, if_pos hp, ih]
    · simp only [List.cons_append, List.dropWhile_cons, if_neg hp]

theorem rdropWhile_cons_neg {p : Char → Bool} {y : Char} {Y : List Char} (h : p y = false) :
    List.rdropWhile p (y :: Y) = y :: List.rdropWhile p Y := by
  unfold List.rdropWhile
  rw [List.reverse_cons, dropWhile_append_singleton h, List.reverse_append]
  rfl

theorem pythonStrip_idem (s : List Char) : pythonStrip (pythonStrip s) = pythonStrip s := by
  unfold pythonStrip
  have hfix : (s.dropWhile isPySpace).dropWhile isPySpace = s.dropWhile isPySpace :=
    List.dropWhile_idempotent _ _
  have hkey : (List.rdropWhile isPySpace (s.dropWhile isPySpace)).dropWhile isPySpace =
      List.rdropWhile isPySpace (s.dropWhile isPySpace) := by
    rcases hY : s.dropWhile isPySpace with _ | ⟨y, Y⟩
    · simp [List.rdropWhile]
    · rw [hY] at hfix
      have hpy : isPySpace y = false := dropWhile_cons_self hfix
      rw [rdropWhile_cons_neg hpy, List.dropWhile_cons, if_neg (by simp [hpy])]
  rw [hkey, List.rdropWhile_idempotent]

theorem takeWhile_all {p : Char → Bool} {l : List Char} (h : l.all p = true) :
    l.takeWhile p = l :=
  List.takeWhile_eq_self_iff.mpr (List.all_eq_true.mp h)

/-- C3, as stated, fails: the structured strategy keeps the whole
stripped text after the first period as the holiday name, while the
fallback strategy truncates the name at the next sentence boundary, so
the two classifiers differ on a hint whose name part contains a
period. -/
theorem c3_counterexample :
    classify_day_type "Выходной день. Новый год. Ура".data [] =
      some (DayKind.holiday, some "Новый год. Ура".data) ∧
    fallback_classify_text "Выходной день. Новый год. Ура".data =
      some (DayKind.holiday, some "Новый год".data) ∧
    classify_day_type "Выходной день. Новый год. Ура".data [] ≠
      fallback_classify_text "Выходной день. Новый год. Ура".data :=
  ⟨by decide, by decide, by decide⟩

/-- C3 (amended): for every text the two strategies assign the same day
type, and they agree completely (including the holiday name) whenever
the stripped text after the period contains no further sentence
boundary (period, newline or carriage return); they differ only in how
much of the name text a holiday keeps. -/
theorem c3_agreement (t : List Char) :
    ((classify_day_type t []).map (fun p => p.1) =
      (fallback_classify_text t).map (fun p => p.1)) ∧
    ((pythonStrip (splitDotRest (pythonStrip t))).all
        (fun c => !(c = '.' || c = '\n' || c = '\r')) = true →
      classify_day_type t [] = fallback_classify_text t) := by
  have h0 : strContains [] SHORTENED_MARK = false := by decide
  constructor
  · simp only [classify_day_type, fallback_classify_text, fallback_classify_window, h0]
    by_cases h1 : PRE_HOLIDAY.isPrefixOf (pythonStrip t) = true
    · simp [h1]
    · by_cases h2 : DAY_OFF_DOT.isPrefixOf (pythonStrip t) = true
      · simp [h1, h2]
      · by_cases h3 : DAY_OFF.isPrefixOf (pythonStrip t) = true
        · simp [h1, h2, h3]
        · simp [h1, h2, h3]
  · intro hall
    have hns : ¬ strContains [] SHORTENED_MARK = true := by decide
    simp only [classify_day_type, fallback_classify_text, fallback_classify_window]
    rw [if_neg hns]
    by_cases h1 : PRE_HOLIDAY.isPrefixOf (pythonStrip t) = true
    · rw [if_pos h1, if_pos h1]
    · rw [if_neg h1, if_neg h1]
      by_cases h2 : DAY_OFF_DOT.isPrefixOf (pythonStrip t) = true
      · rw [if_pos h2, if_pos h2, takeWhile_all hall, pythonStrip_idem]
      · rw [if_neg h2, if_neg h2]

/-- Witness for c3_agreement at a hint whose name has no inner sentence
boundary: the two strategies agree exactly. -/
theorem c3_agreement_witness :
    classify_day_type "Выходной день. Праздник".data [] =
      fallback_classify_text "Выходной день. Праздник".data :=
  (c3_agreement "Выходной день. Праздник".data).2 (by decide)

/-!  C9: the two parsing strategies and the fatal-error path. -/

/-- C9, as stated, fails in its error-message part: on a page with no
old-layout month containers and no month names in the text, neither
strategy yields 12 month mappings and parsing does fail, but the
propagated error is the fallback's own "Could not find all month names"
message, which does not name the offending year. -/
theorem c9_counterexample :
    get_days_by_months_with_types
        (some ⟨[], "no months".data⟩) 2024 =
      Except.error
        "Could not find all month names in HH page text (layout changed).".data ∧
    strContains
      "Could not find all month names in HH page text (layout changed).".data
      (natRepr 2024) = false := by
  constructor
  · decide
  · decide

/-- C9 (amended): when the structured strategy does not find exactly 12
month containers it yields no result ([]), and the overall parse then
follows the fallback: a fallback error propagates as the fatal outcome
(with the fallback's own message, which need not name the year); a
fallback success always carries exactly 12 month maps; and any
successful overall parse carries exactly 12 month maps, so no partial
result is ever returned. -/
theorem c9_parse_error_paths (tree : PageTree) (year : Nat)
    (hc : tree.monthContainers.length ≠ 12) :
    parse_months_old_layout tree = [] ∧
    (∀ e, parse_months_text_fallback tree = Except.error e →
      get_days_by_months_with_types (some tree) year = Except.error e) ∧
    (∀ m, parse_months_text_fallback tree = Except.ok m → m.length = 12) ∧
    (∀ m, get_days_by_months_with_types (some tree) year = Except.ok (some m) →
      m.length = 12) := by
  have ha : parse_months_old_layout tree = [] := by
    unfold parse_months_old_layout
    rw [if_pos hc]
  refine ⟨ha, ?_, ?_, ?_⟩
  · intro e he
    simp only [get_days_by_months_with_types, ha, he]
    rw [if_neg (by simp)]
  · intro m hm
    simp only [parse_months_text_fallback] at hm
    split at hm
    · cases hm
    · cases hm
      simp
  · intro m hm
    simp only [get_days_by_months_with_types] at hm
    split at hm
    · rename_i hcond
      cases hm
      exact hcond.2
    · split at hm
      · cases hm
      · split at hm
        · rename_i hcond2
          cases hm
          exact hcond2.2
        · cases hm

/-- Witness for c9_parse_error_paths on a concrete empty page. -/
theorem c9_parse_error_paths_witness :
    parse_months_old_layout ⟨[], []⟩ = [] :=
  (c9_parse_error_paths ⟨[], []⟩ 2024 (by decide)).1

/-!  C6: the event identifier. -/

theorem reprRev_zero (fuel : Nat) : reprRev fuel 0 = [] := by
  cases fuel <;> simp [reprRev]

theorem reprRev_ofDigits : ∀ fuel n, n ≤ fuel → Nat.ofDigits 10 (reprRev fuel n) = n := by
  intro fuel
  induction fuel with
  | zero =>
    intro n h
    have : n = 0 := by omega
    subst this
    simp [reprRev]
  | succ fuel ih =>
    intro n h
    by_cases hn : n = 0
    · subst hn
      simp [reprRev]
    · simp only [reprRev, if_neg hn, Nat.ofDigits_cons]
      have hdiv : n / 10 ≤ fuel := by
        have := Nat.div_lt_self (Nat.pos_of_ne_zero hn) (by norm_num : 1 < 10)
        omega
      rw [ih (n / 10) hdiv]
      omega

theorem reprRev_lt_ten : ∀ fuel n d, d ∈ reprRev fuel n → d < 10 := by
  intro fuel
  induction fuel with
  | zero => intro n d hd; simp [reprRev] at hd
  | succ fuel ih =>
    intro n d hd
    by_cases hn : n = 0
    · subst hn; simp [reprRev] at hd
    · simp only [reprRev, if_neg hn, List.mem_cons] at hd
      rcases hd with rfl | hd
      · omega
      · exact ih (n / 10) d hd

theorem digitVal_digitChar : ∀ d, d < 10 → digitVal (digitChar d) = d := by decide

theorem charsVal_rev_map (ds : List Nat) (h : ∀ d ∈ ds, d < 10) :
    charsVal ((ds.map digitChar).reverse) = Nat.ofDigits 10 ds := by
  induction ds with
  | nil => rfl
  | cons d ds ih =>
    rw [List.map_cons, List.reverse_cons]
    show List.foldl (fun a c => 10 * a + digitVal c) 0
      ((ds.map digitChar).reverse ++ [digitChar d]) = _
    rw [List.foldl_append]
    show 10 * charsVal ((ds.map digitChar).reverse) + digitVal (digitChar d) = _
    rw [ih (fun x hx => h x (List.mem_cons_of_mem _ hx)),
      digitVal_digitChar d (h d (List.mem_cons_self _ _)), Nat.ofDigits_cons]
    omega

theorem charsVal_natRepr (n : Nat) : charsVal (natRepr n) = n := by
  by_cases hn : n = 0
  · subst hn
    decide
  · simp only [natRepr, if_neg hn]
    rw [List.map_reverse]
    rw [charsVal_rev_map _ (fun d hd => reprRev_lt_ten n n d hd)]
    exact reprRev_ofDigits n n le_rfl

theorem foldl_zero_replicate (k : Nat) :
    List.foldl (fun a c => 10 * a + digitVal c) 0 (List.replicate k '0') = 0 := by
  induction k with
  | zero => rfl
  | succ k ih =>
    rw [List.replicate_succ, List.foldl_cons]
    have h0 : (10 * 0 + digitVal '0') = 0 := by decide
    rw [h0, ih]

theorem charsVal_pad2 (n : Nat) : charsVal (pad2 n) = n := by
  show List.foldl (fun a c => 10 * a + digitVal c) 0
    (List.replicate (2 - (natRepr n).length) '0' ++ natRepr n) = n
  rw [List.foldl_append, foldl_zero_replicate]
  exact charsVal_natRepr n

theorem reprRev_length_le : ∀ fuel n k, n < 10 ^ k → (reprRev fuel n).length ≤ k := by
  intro fuel
  induction fuel with
  | zero => intro n k _; simp [reprRev]
  | succ fuel ih =>
    intro n k h
    by_cases hn : n = 0
    · simp [reprRev, hn]
    · rcases k with _ | k'
      · simp only [pow_zero] at h
        omega
      · simp only [reprRev, if_neg hn, List.length_cons]
        have hdiv : n / 10 < 10 ^ k' := by
          rw [pow_succ] at h
          omega
        exact Nat.succ_le_succ (ih (n / 10) k' hdiv)

theorem reprRev_length_eq : ∀ k fuel n, n ≤ fuel → 10 ^ k ≤ n → n < 10 ^ (k + 1) →
    (reprRev fuel n).length = k + 1 := by
  intro k
  induction k with
  | zero =>
    intro fuel n hf h1 h2
    simp only [pow_zero, pow_one] at h1 h2
    rcases fuel with _ | f
    · omega
    · have hn : n ≠ 0 := by omega
      simp only [reprRev, if_neg hn, List.length_cons]
      have hdiv : n / 10 = 0 := Nat.div_eq_of_lt h2
      rw [hdiv, reprRev_zero]
      rfl
  | succ k ih =>
    intro fuel n hf h1 h2
    have hpow : (1 : Nat) ≤ 10 ^ (k + 1) := Nat.one_le_pow _ _ (by norm_num)
    rcases fuel with _ | f
    · omega
    · have hn : n ≠ 0 := by omega
      simp only [reprRev, if_neg hn, List.length_cons]
      have hub : n / 10 < 10 ^ (k + 1) := by
        rw [pow_succ] at h2
        omega
      have hlb : 10 ^ k ≤ n / 10 := by
        rw [pow_succ] at h1
        omega
      have hfle : n / 10 ≤ f := by
        have := Nat.div_lt_self (Nat.pos_of_ne_zero hn) (by norm_num : 1 < 10)
        omega
      rw [ih f (n / 10) hfle hlb hub]

theorem natRepr_length4 {y : Nat} (h1 : 1000 ≤ y) (h2 : y ≤ 9999) :
    (natRepr y).length = 4 := by
  have hy : y ≠ 0 := by omega
  simp only [natRepr, if_neg hy, List.length_map, List.length_reverse]
  exact reprRev_length_eq 3 y y le_rfl (by norm_num; omega) (by norm_num; omega)

theorem pad2_length {n : Nat} (h : n ≤ 99) : (pad2 n).length = 2 := by
  have hle : (natRepr n).length ≤ 2 := by
    by_cases hn : n = 0
    · simp [natRepr, hn]
    · simp only [natRepr, if_neg hn, List.length_map, List.length_reverse]
      exact reprRev_length_le n n 2 (by norm_num; omega)
  have hrep : (List.replicate (2 - (natRepr n).length) '0').length =
      2 - (natRepr n).length := List.length_replicate _ _
  show (List.replicate (2 - (natRepr n).length) '0' ++ natRepr n).length = 2
  rw [List.length_append, hrep]
  omega

/-- C6: the event identifier is a pure function of (year, month, start
day, end day, summary label): it never reads the description or the
clock, so identical inputs give identical UIDs across runs (the right-
to-left direction, where the two events may differ in description and
timestamp), and within realistic use (4-digit years, days and months up
to two digits, the three fixed labels) distinct inputs give distinct
UIDs (the left-to-right direction). -/
theorem c6_uid_injective
    (y m ds de : Nat) (s : List Char) (d : Option (List Char)) (n : Nat)
    (y' m' ds' de' : Nat) (s' : List Char) (d' : Option (List Char)) (n' : Nat)
    (hy1 : 1000 ≤ y) (hy2 : y ≤ 9999) (hy1' : 1000 ≤ y') (hy2' : y' ≤ 9999)
    (hm : m ≤ 12) (hm' : m' ≤ 12) (hds : ds ≤ 31) (hds' : ds' ≤ 31)
    (hde : de ≤ 31) (hde' : de' ≤ 31)
    (hs : s ∈ uidLabels) (hs' : s' ∈ uidLabels) :
    (make_event y m ds de s d n).uid = (make_event y' m' ds' de' s' d' n').uid ↔
      (y = y' ∧ m = m' ∧ ds = ds' ∧ de = de' ∧ s = s') := by
  constructor
  · intro h
    simp only [make_event] at h
    simp only [List.append_assoc] at h
    obtain ⟨-, h⟩ := List.append_inj h rfl
    obtain ⟨hy, h⟩ := List.append_inj h
      (by rw [natRepr_length4 hy1 hy2, natRepr_length4 hy1' hy2'])
    obtain ⟨hmn, h⟩ := List.append_inj h
      (by rw [pad2_length (by omega), pad2_length (by omega)])
    obtain ⟨hdsn, h⟩ := List.append_inj h
      (by rw [pad2_length (by omega), pad2_length (by omega)])
    obtain ⟨-, h⟩ := List.append_inj h rfl
    obtain ⟨hden, h⟩ := List.append_inj h
      (by rw [pad2_length (by omega), pad2_length (by omega)])
    obtain ⟨-, hslug⟩ := List.append_inj h rfl
    have hyv : y = y' := by
      have hc := congrArg charsVal hy
      rwa [charsVal_natRepr, charsVal_natRepr] at hc
    have hmv : m = m' := by
      have hc := congrArg charsVal hmn
      rwa [charsVal_pad2, charsVal_pad2] at hc
    have hdsv : ds = ds' := by
      have hc := congrArg charsVal hdsn
      rwa [charsVal_pad2, charsVal_pad2] at hc
    have hdev : de = de' := by
      have hc := congrArg charsVal hden
      rwa [charsVal_pad2, charsVal_pad2] at hc
    have hsv : s = s' := by
      simp only [uidLabels, List.mem_cons, List.not_mem_nil, or_false] at hs hs'
      rcases hs with rfl | rfl | rfl <;> rcases hs' with rfl | rfl | rfl <;>
        first
          | rfl
          | exact absurd hslug (by decide)
    exact ⟨hyv, hmv, hdsv, hdev, hsv⟩
  · rintro ⟨rfl, rfl, rfl, rfl, rfl⟩
    rfl

/-- Witness for c6_uid_injective: two events for the same logical range
built in different runs (different descriptions and timestamps) share
their UID. -/
theorem c6_uid_injective_witness :
    (make_event 2024 1 1 7 "Day off".data none 5).uid =
      (make_event 2024 1 1 7 "Day off".data (some "x".data) 9).uid :=
  (c6_uid_injective 2024 1 1 7 "Day off".data none 5
      2024 1 1 7 "Day off".data (some "x".data) 9
      (by omega) (by omega) (by omega) (by omega) (by omega) (by omega)
      (by omega) (by omega) (by omega) (by omega)
      (by decide) (by decide)).mpr
    ⟨rfl, rfl, rfl, rfl, rfl⟩

end ProdcalIcs
